import Mathlib

/-!
Shallow embedding of the presence/chat relay server.

The source keeps one process-wide mutable map `onlineUsersByRoom :
Record<string, {socketId, userId, name, photo}[]>` and installs four
socket event handlers: `newUser`, `disconnect`, `chat:message` and
`leave-call`.  Each handler mutates the map and performs external
effects (HTTP calls through `apiClient.post`, `socket.join` /
`socket.leave`, and room broadcasts via `io.to(room).emit`).

Here the map is an association list in key-insertion order (JS string
keys iterate in insertion order), each handler is a pure function from
the registry to a `HandlerResult` holding the new registry, the list of
external effects in program order, and whether the handler aborted with
an uncaught error (the `apiClient.post` helper throws on a non-2xx
response and no handler catches it, so a backend failure stops the
handler at the `await`).
-/

namespace ServerChat

/-- One entry of a room's user array: `{ socketId, userId, name, photo }`.
`name` and `photo` come from the client payload and may be absent. -/
structure Member where
  socketId : String
  userId   : String
  name     : Option String
  photo    : Option String
deriving DecidableEq, Repr

/-- The `onlineUsersByRoom` record: room id to member array, in key
insertion order. -/
abbrev Registry := List (String × List Member)

/-- The outgoing chat message object built by the `chat:message` handler. -/
structure OutMessage where
  userId    : String
  message   : String
  timestamp : String
  name      : Option String
  photo     : Option String
deriving DecidableEq, Repr

/-- External effects a handler performs, in program order:
backend HTTP calls, socket room membership changes, and broadcasts. -/
inductive Effect where
  | addParticipant (meetingId userId : String) (name : Option String)
  | removeParticipant (meetingId userId : String) (name : Option String)
  | joinRoom (roomId : String)
  | leaveRoom (roomId : String)
  | usersOnline (roomId : String) (members : List Member)
  | chatMsg (roomId : String) (msg : OutMessage)
deriving DecidableEq, Repr

/-- Result of running one handler: the registry afterwards, the effects
performed, and whether the handler ended in an uncaught exception. -/
structure HandlerResult where
  registry : Registry
  effects  : List Effect
  threw    : Bool
deriving DecidableEq, Repr

/-- Payload of the `newUser` event; missing `userId`/`roomId` behave like
the empty string under the handler's falsiness guard. -/
structure JoinPayload where
  userId : String
  name   : Option String
  photo  : Option String
  roomId : String
deriving DecidableEq, Repr

/-- Payload of the `chat:message` event. -/
structure ChatPayload where
  userId    : String
  message   : String
  timestamp : Option String
deriving DecidableEq, Repr

/-- JS `String.prototype.trim()`: strip leading and trailing whitespace
(defined over the character list so it evaluates in the kernel). -/
def jsTrim (s : String) : String :=
  String.mk (((s.toList.dropWhile Char.isWhitespace).reverse.dropWhile
    Char.isWhitespace).reverse)

/-- `onlineUsersByRoom[roomId]`: the member array of a room, when the key
is present. -/
def findRoom (reg : Registry) (rid : String) : Option (List Member) :=
  (reg.find? (fun q => q.1 == rid)).map (fun q => q.2)

/-- The member array of a room, empty when the room is untracked. -/
def roomList (reg : Registry) (rid : String) : List Member :=
  (findRoom reg rid).getD []

/-- `if (!onlineUsersByRoom[roomId]) onlineUsersByRoom[roomId] = []`:
create the room key (at the end, in insertion order) when absent. -/
def ensureRoom (reg : Registry) (rid : String) : Registry :=
  match findRoom reg rid with
  | some _ => reg
  | none   => reg ++ [(rid, [])]

/-- Assignment `onlineUsersByRoom[roomId] = ms` for a key already present. -/
def setRoom (reg : Registry) (rid : String) (ms : List Member) : Registry :=
  reg.map (fun q => if q.1 == rid then (rid, ms) else q)

/-- The `newUser` handler.  `backendFails` selects the semantics of the
`await apiClient.post("/api/v1/meetings/add-participant", ...)` call:
when it rejects, the handler has already pushed the member (the array is
mutated in place before the `await`) but aborts before `socket.join` and
the `usersOnline` broadcast. -/
def newUserB (backendFails : Bool) (sid : String) (p : JoinPayload)
    (reg : Registry) : HandlerResult :=
  if p.userId = "" ∨ p.roomId = "" then ⟨reg, [], false⟩
  else
    let reg1 := ensureRoom reg p.roomId
    let users := roomList reg1 p.roomId
    match users.findIdx? (fun u => u.socketId == sid) with
    | some i =>
        -- Case 1: this socket is already registered in the room.
        let users' := users.set i ⟨sid, p.userId, p.name, p.photo⟩
        ⟨setRoom reg1 p.roomId users',
         [Effect.joinRoom p.roomId, Effect.usersOnline p.roomId users'], false⟩
    | none =>
        if ¬ users.any (fun u => u.userId == p.userId) then
          -- Case 2: this userId is new to the room.
          let users' := users ++ [⟨sid, p.userId, p.name, p.photo⟩]
          let reg2 := setRoom reg1 p.roomId users'
          if backendFails then
            ⟨reg2, [Effect.addParticipant p.roomId p.userId p.name], true⟩
          else
            ⟨reg2, [Effect.addParticipant p.roomId p.userId p.name,
                    Effect.joinRoom p.roomId,
                    Effect.usersOnline p.roomId users'], false⟩
        else
          -- Case 3: userId present with a different socket; rewrite it.
          let users' := users.map (fun u =>
            if u.userId == p.userId then ⟨sid, p.userId, p.name, p.photo⟩ else u)
          ⟨setRoom reg1 p.roomId users',
           [Effect.joinRoom p.roomId, Effect.usersOnline p.roomId users'], false⟩

/-- The `newUser` handler on the success path of the backend call. -/
def newUser (sid : String) (p : JoinPayload) (reg : Registry) : HandlerResult :=
  newUserB false sid p reg

/-- Effects the `disconnect` handler performs for one room of the loop. -/
def disconnectRoomEffects (sid rid : String) (ms : List Member) : List Effect :=
  let userToRemove := ms.find? (fun u => u.socketId == sid)
  let ms' := ms.filter (fun u => !(u.socketId == sid))
  if ms.length ≠ ms'.length then
    (match userToRemove with
     | some u => [Effect.removeParticipant rid u.userId u.name]
     | none   => []) ++ [Effect.usersOnline rid ms']
  else []

/-- The `disconnect` handler: every room is filtered on the socket id,
and a backend call plus broadcast happen in each room whose array shrank. -/
def disconnect (sid : String) (reg : Registry) : HandlerResult :=
  ⟨reg.map (fun q => (q.1, q.2.filter (fun u => !(u.socketId == sid)))),
   (reg.map (fun q => disconnectRoomEffects sid q.1 q.2)).flatten,
   false⟩

/-- The `leave-call` handler.  Note `socket.leave(roomId)` and the
`usersOnline` broadcast run unconditionally once the room is tracked,
while the backend call is guarded by `if (userToRemove)`. -/
def leaveCall (sid : String) (roomId : String) (reg : Registry) : HandlerResult :=
  if roomId = "" then ⟨reg, [], false⟩
  else
    match findRoom reg roomId with
    | none => ⟨reg, [], false⟩
    | some users =>
        let userToRemove := users.find? (fun u => u.socketId == sid)
        let users' := users.filter (fun u => !(u.socketId == sid))
        let reg' := setRoom reg roomId users'
        ⟨reg',
         (match userToRemove with
          | some u => [Effect.removeParticipant roomId u.userId u.name]
          | none   => []) ++ [Effect.leaveRoom roomId, Effect.usersOnline roomId users'],
         false⟩

/-- The sender lookup loop of `chat:message`: scan rooms in insertion
order, take the first member whose socket id matches. -/
def findSender (sid : String) : Registry → Option (String × Member)
  | [] => none
  | (rid, ms) :: rest =>
      match ms.find? (fun u => u.socketId == sid) with
      | some m => some (rid, m)
      | none   => findSender sid rest

/-- The `chat:message` handler.  `now` is the value
`new Date().toISOString()` would produce; it is used only when the
payload carries no timestamp. -/
def chatMessage (now sid : String) (p : ChatPayload) (reg : Registry) :
    HandlerResult :=
  let trimmedMessage := jsTrim p.message
  if trimmedMessage = "" then ⟨reg, [], false⟩
  else
    match findSender sid reg with
    | some (rid, sender) =>
        ⟨reg, [Effect.chatMsg rid
                ⟨p.userId, trimmedMessage, p.timestamp.getD now,
                 sender.name, sender.photo⟩], false⟩
    | none => ⟨reg, [], false⟩

/-- One inbound transport event. -/
inductive Event where
  | join (sid : String) (p : JoinPayload)
  | disc (sid : String)
  | leave (sid roomId : String)
  | chat (now sid : String) (p : ChatPayload)
deriving DecidableEq, Repr

/-- Registry transition of one event (backend calls succeeding). -/
def step (reg : Registry) : Event → Registry
  | Event.join sid p     => (newUser sid p reg).registry
  | Event.disc sid       => (disconnect sid reg).registry
  | Event.leave sid rid  => (leaveCall sid rid reg).registry
  | Event.chat now sid p => (chatMessage now sid p reg).registry

/-- Registry reached from `reg` by a sequence of events. -/
def run (reg : Registry) (es : List Event) : Registry := es.foldl step reg

/-- A sequence of `newUser` events sharing one `userId` and one room,
each with its own connection id and display attributes; effects are
concatenated in order. -/
def joinSeq (u rid : String) :
    Registry → List (String × Option String × Option String) →
    Registry × List Effect
  | reg, [] => (reg, [])
  | reg, (c, n, p) :: rest =>
      let r := newUser c ⟨u, n, p, rid⟩ reg
      let r2 := joinSeq u rid r.registry rest
      (r2.1, r.effects ++ r2.2)

/-- Recognizer for backend add-participant effects. -/
def isAddParticipant : Effect → Bool
  | Effect.addParticipant _ _ _ => true
  | _ => false

/-- Recognizer for backend remove-participant effects. -/
def isRemoveParticipant : Effect → Bool
  | Effect.removeParticipant _ _ _ => true
  | _ => false

/-- Number of members carrying a given socket id, over the whole registry. -/
def sidCount (reg : Registry) (sid : String) : Nat :=
  (reg.map (fun q => q.2.countP (fun u => u.socketId == sid))).sum

/-- Total number of members over the whole registry. -/
def totalMembers (reg : Registry) : Nat :=
  (reg.map (fun q => q.2.length)).sum

/-- Number of rooms whose member array mentions a given socket id. -/
def roomsWithSid (reg : Registry) (sid : String) : Nat :=
  (reg.filter (fun q => q.2.any (fun u => u.socketId == sid))).length

/-- Per-room uniqueness of `userId` (the spec's §3 invariant). -/
def roomsUserIdNodup (reg : Registry) : Prop :=
  ∀ q ∈ reg, (q.2.map Member.userId).Nodup

/-- Side condition on a join event: when the connection is already
registered in the room (the Case-1 in-place overwrite), the join's
`userId` must not occur at any other position of that room's member
list.  All other events are unrestricted. -/
def joinSafe (reg : Registry) : Event → Prop
  | Event.join sid p =>
      ∀ i, (roomList (ensureRoom reg p.roomId) p.roomId).findIdx?
             (fun u => u.socketId == sid) = some i →
        ∀ u ∈ (roomList (ensureRoom reg p.roomId) p.roomId).eraseIdx i,
          u.userId ≠ p.userId
  | _ => True

/-- A member list with no entry for a socket id has `find?` fail on it. -/
theorem find?_sid_eq_none {sid : String} {ms : List Member}
    (h : ∀ u ∈ ms, u.socketId ≠ sid) :
    ms.find? (fun u => u.socketId == sid) = none := by
  rw [List.find?_eq_none]
  intro x hx
  simpa using h x hx

/-- The chat sender scan fails when no room's member list mentions the
socket id. -/
theorem findSender_eq_none {sid : String} {reg : Registry}
    (h : ∀ q ∈ reg, ∀ u ∈ q.2, u.socketId ≠ sid) :
    findSender sid reg = none := by
  induction reg with
  | nil => rfl
  | cons q rest ih =>
      obtain ⟨rid, ms⟩ := q
      show (match ms.find? (fun u => u.socketId == sid) with
            | some m => some (rid, m)
            | none   => findSender sid rest) = none
      rw [find?_sid_eq_none (fun u hu => h (rid, ms) (List.mem_cons_self _ _) u hu)]
      exact ih (fun q hq => h q (List.mem_cons_of_mem _ hq))

/-- C9: invalid input is silently dropped: a join event whose `userId` or
`roomId` is empty leaves the registry unchanged, emits nothing, makes no
backend call and throws no exception (whatever the backend would have
done), and a chat message that is empty after trimming does likewise. -/
theorem invalid_input_silently_dropped
    (bf : Bool) (sid : String) (p : JoinPayload) (reg : Registry)
    (now sid2 : String) (q : ChatPayload) (reg2 : Registry) :
    ((p.userId = "" ∨ p.roomId = "") → newUserB bf sid p reg = ⟨reg, [], false⟩) ∧
    (jsTrim q.message = "" → chatMessage now sid2 q reg2 = ⟨reg2, [], false⟩) := by
  constructor
  · intro h
    unfold newUserB
    rw [if_pos h]
  · intro h
    unfold chatMessage
    rw [if_pos h]

/-- Witness for C9 at a join with empty `userId` and a whitespace chat
message. -/
theorem invalid_input_silently_dropped_witness :
    newUserB false "c1" ⟨"", none, none, "R"⟩ [] = ⟨[], [], false⟩ ∧
    chatMessage "T" "c1" ⟨"A", "   ", none⟩ [] = ⟨[], [], false⟩ :=
  ⟨(invalid_input_silently_dropped false "c1" ⟨"", none, none, "R"⟩ []
      "T" "c1" ⟨"A", "   ", none⟩ []).1 (Or.inl rfl),
   (invalid_input_silently_dropped false "c1" ⟨"", none, none, "R"⟩ []
      "T" "c1" ⟨"A", "   ", none⟩ []).2 (by decide)⟩

/-- C10: every broadcast chat message carries the inbound payload's
`userId` verbatim; only `name`/`photo` are resolved from the registry. -/
theorem chat_userId_taken_verbatim (now sid : String) (p : ChatPayload)
    (reg : Registry) (rid : String) (out : OutMessage)
    (h : Effect.chatMsg rid out ∈ (chatMessage now sid p reg).effects) :
    out.userId = p.userId := by
  dsimp only [chatMessage] at h
  split at h
  · simp at h
  · split at h
    · simp only [List.mem_singleton, Effect.chatMsg.injEq] at h
      rw [h.2]
    · simp at h

/-- Witness for C10: the registry knows the sending connection as user
`A`, the payload claims user `B`, and the broadcast says `B`. -/
theorem chat_userId_taken_verbatim_witness :
    (OutMessage.mk "B" "hi" "T" (some "Bea") none).userId = "B" :=
  chat_userId_taken_verbatim "T" "c1" ⟨"B", " hi ", none⟩
    [("R", [⟨"c1", "A", some "Bea", none⟩])] "R"
    ⟨"B", "hi", "T", some "Bea", none⟩ (by decide)

/-- C8: a chat message never changes the registry, and a chat message
from a connection present in no room's member list produces zero
outbound broadcasts. -/
theorem chat_unknown_sender_dropped (now sid : String) (p : ChatPayload)
    (reg : Registry) :
    (chatMessage now sid p reg).registry = reg ∧
    ((∀ q ∈ reg, ∀ u ∈ q.2, u.socketId ≠ sid) →
      (chatMessage now sid p reg).effects = []) := by
  constructor
  · dsimp only [chatMessage]
    split
    · rfl
    · split <;> rfl
  · intro h
    dsimp only [chatMessage]
    split
    · rfl
    · rw [findSender_eq_none h]

/-- Witness for C8 at a registry that does not know the sender. -/
theorem chat_unknown_sender_dropped_witness :
    (chatMessage "T" "c9" ⟨"A", "hi", none⟩
        [("R", [⟨"c1", "u1", none, none⟩])]).registry =
      [("R", [⟨"c1", "u1", none, none⟩])] ∧
    (chatMessage "T" "c9" ⟨"A", "hi", none⟩
        [("R", [⟨"c1", "u1", none, none⟩])]).effects = [] :=
  ⟨(chat_unknown_sender_dropped "T" "c9" ⟨"A", "hi", none⟩
      [("R", [⟨"c1", "u1", none, none⟩])]).1,
   (chat_unknown_sender_dropped "T" "c9" ⟨"A", "hi", none⟩
      [("R", [⟨"c1", "u1", none, none⟩])]).2 (by decide)⟩

/-- C1 fails as stated: the same connection can join two different rooms
and is then present in both, and its single disconnect removes two
Members and issues two backend remove-participant calls. -/
theorem connection_in_two_rooms_counterexample :
    roomsWithSid (run [] [Event.join "c1" ⟨"u1", none, none, "R1"⟩,
                          Event.join "c1" ⟨"u1", none, none, "R2"⟩]) "c1" = 2 ∧
    ((disconnect "c1" (run [] [Event.join "c1" ⟨"u1", none, none, "R1"⟩,
                               Event.join "c1" ⟨"u1", none, none, "R2"⟩])).effects.countP
        isRemoveParticipant) = 2 := by
  decide

/-- C2 fails as stated: a same-connection re-announce (Case 1) may
overwrite the Member's `userId` with one another Member already holds,
so a reachable room lists the same `userId` twice. -/
theorem duplicate_userId_reachable_counterexample :
    ¬ roomsUserIdNodup (run [] [Event.join "c1" ⟨"uA", none, none, "R"⟩,
                                Event.join "c2" ⟨"uB", none, none, "R"⟩,
                                Event.join "c1" ⟨"uB", none, none, "R"⟩]) := by
  unfold roomsUserIdNodup
  decide

/-- C3 fails as stated: when the backend add-participant call rejects,
the registry keeps the new Member, but the handler stops at the `await`
— the connection is never attached to the room and no `usersOnline`
broadcast happens. -/
theorem backend_failure_cancels_broadcast_counterexample :
    (newUserB true "c1" ⟨"u1", none, none, "R"⟩ []).registry =
      [("R", [⟨"c1", "u1", none, none⟩])] ∧
    (newUserB true "c1" ⟨"u1", none, none, "R"⟩ []).effects =
      [Effect.addParticipant "R" "u1" none] ∧
    (newUserB true "c1" ⟨"u1", none, none, "R"⟩ []).threw = true := by
  decide

/-- C6 fails as stated: a leave for a tracked room from a connection
that is not a member removes nothing, yet `socket.leave` and the
`usersOnline` broadcast still run. -/
theorem leave_broadcast_without_removal_counterexample :
    (leaveCall "c1" "R" [("R", [⟨"c2", "u2", none, none⟩])]).registry =
      [("R", [⟨"c2", "u2", none, none⟩])] ∧
    (leaveCall "c1" "R" [("R", [⟨"c2", "u2", none, none⟩])]).effects =
      [Effect.leaveRoom "R",
       Effect.usersOnline "R" [⟨"c2", "u2", none, none⟩]] := by
  decide

/-- Overwriting a room key that is present makes `findRoom` return the
new list. -/
theorem findRoom_setRoom_some {reg : Registry} {rid : String} {ms ms' : List Member}
    (h : findRoom reg rid = some ms) :
    findRoom (setRoom reg rid ms') rid = some ms' := by
  induction reg with
  | nil => simp [findRoom] at h
  | cons q rest ih =>
      simp only [setRoom, List.map_cons, findRoom] at h ih ⊢
      cases hq : (q.1 == rid) with
      | true =>
          rw [if_pos rfl, List.find?_cons_of_pos _ (by simp)]
          rfl
      | false =>
          rw [if_neg (by simp), List.find?_cons_of_neg _ (by simp [hq])]
          rw [List.find?_cons_of_neg _ (by simp [hq])] at h
          exact ih h

/-- Entries of other rooms survive a `setRoom` untouched. -/
theorem mem_setRoom_of_ne {reg : Registry} {rid : String}
    {ms : List Member} {q : String × List Member}
    (hq : q ∈ reg) (hne : q.1 ≠ rid) : q ∈ setRoom reg rid ms := by
  have : (if q.1 == rid then (rid, ms) else q) ∈ setRoom reg rid ms :=
    List.mem_map_of_mem _ hq
  rwa [if_neg (by simpa using hne)] at this

/-- Appending a freshly created room makes `findRoom` find it. -/
theorem findRoom_append_nil_room {reg : Registry} {rid : String}
    (h : findRoom reg rid = none) :
    findRoom (reg ++ [(rid, [])]) rid = some [] := by
  unfold findRoom at h ⊢
  rw [List.find?_append]
  have hf : List.find? (fun q => q.1 == rid) reg = none := by
    cases hf : List.find? (fun q => q.1 == rid) reg with
    | none => rfl
    | some v => rw [hf] at h; simp at h
  rw [hf]
  simp [List.find?]

/-- `ensureRoom` guarantees the room key resolves, to the old list when
present and to the empty list otherwise. -/
theorem findRoom_ensureRoom (reg : Registry) (rid : String) :
    findRoom (ensureRoom reg rid) rid = some (roomList reg rid) := by
  unfold ensureRoom roomList
  cases h : findRoom reg rid with
  | some ms => simpa using h
  | none => simpa using findRoom_append_nil_room h

/-- `ensureRoom` does not change the room's member list. -/
theorem roomList_ensureRoom (reg : Registry) (rid : String) :
    roomList (ensureRoom reg rid) rid = roomList reg rid := by
  unfold roomList
  rw [findRoom_ensureRoom]
  rfl

/-- `ensureRoom` is the identity when the room is tracked. -/
theorem ensureRoom_of_some {reg : Registry} {rid : String} {ms : List Member}
    (h : findRoom reg rid = some ms) : ensureRoom reg rid = reg := by
  unfold ensureRoom
  rw [h]

/-- A nonempty room list can only come from a tracked room. -/
theorem findRoom_of_roomList_ne_nil {reg : Registry} {rid : String}
    (h : roomList reg rid ≠ []) : findRoom reg rid = some (roomList reg rid) := by
  unfold roomList at h ⊢
  cases hf : findRoom reg rid with
  | none => rw [hf] at h; simp at h
  | some ms => simp

/-- C6 amended: an explicit leave is a no-op when `roomId` is empty or
the room is untracked; when the room is tracked, exactly the Members of
that room carrying the requesting connection id are removed and other
rooms are untouched, the backend remove-participant call happens iff
such a Member existed, while the detach from the broadcast group and the
`usersOnline` broadcast happen unconditionally. -/
theorem leave_call_behaviour (sid rid : String) (reg : Registry) :
    ((rid = "" ∨ findRoom reg rid = none) → leaveCall sid rid reg = ⟨reg, [], false⟩) ∧
    (∀ ms, rid ≠ "" → findRoom reg rid = some ms →
      findRoom (leaveCall sid rid reg).registry rid =
        some (ms.filter (fun u => !(u.socketId == sid))) ∧
      (∀ q ∈ reg, q.1 ≠ rid → q ∈ (leaveCall sid rid reg).registry) ∧
      ((∃ u ∈ ms, u.socketId = sid) ↔
        ∃ e ∈ (leaveCall sid rid reg).effects, isRemoveParticipant e) ∧
      Effect.leaveRoom rid ∈ (leaveCall sid rid reg).effects ∧
      Effect.usersOnline rid (ms.filter (fun u => !(u.socketId == sid))) ∈
        (leaveCall sid rid reg).effects) := by
  constructor
  · rintro (h | h)
    · unfold leaveCall
      rw [if_pos h]
    · unfold leaveCall
      split
      · rfl
      · rw [h]
  · intro ms hne hfound
    have hres : leaveCall sid rid reg =
        ⟨setRoom reg rid (ms.filter (fun u => !(u.socketId == sid))),
         (match ms.find? (fun u => u.socketId == sid) with
          | some u => [Effect.removeParticipant rid u.userId u.name]
          | none   => []) ++
           [Effect.leaveRoom rid,
            Effect.usersOnline rid (ms.filter (fun u => !(u.socketId == sid)))],
         false⟩ := by
      unfold leaveCall
      rw [if_neg hne, hfound]
    rw [hres]
    refine ⟨findRoom_setRoom_some hfound, ?_, ?_, ?_, ?_⟩
    · intro q hq hqne
      exact mem_setRoom_of_ne hq hqne
    · constructor
      · rintro ⟨u, hu, husid⟩
        cases hf : ms.find? (fun u => u.socketId == sid) with
        | some u0 =>
            exact ⟨Effect.removeParticipant rid u0.userId u0.name,
              by simp, by simp [isRemoveParticipant]⟩
        | none =>
            rw [List.find?_eq_none] at hf
            exact absurd (by simpa using husid) (hf u hu)
      · rintro ⟨e, he, hre⟩
        cases hf : ms.find? (fun u => u.socketId == sid) with
        | some u0 =>
            refine ⟨u0, List.mem_of_find?_eq_some hf, ?_⟩
            simpa using List.find?_some hf
        | none =>
            rw [hf] at he
            simp only [List.nil_append, List.mem_cons, List.not_mem_nil,
              or_false] at he
            rcases he with rfl | rfl <;> simp [isRemoveParticipant] at hre
    · cases hf : ms.find? (fun u => u.socketId == sid) <;> simp [hf]
    · cases hf : ms.find? (fun u => u.socketId == sid) <;> simp [hf]

/-- Witness for C6 amended: both the untracked-room no-op and the
tracked-room case at concrete inputs. -/
theorem leave_call_behaviour_witness :
    leaveCall "c1" "RX" [("R", [⟨"c1", "u1", none, none⟩])] =
      ⟨[("R", [⟨"c1", "u1", none, none⟩])], [], false⟩ ∧
    findRoom (leaveCall "c1" "R"
        [("R", [⟨"c1", "u1", none, none⟩])]).registry "R" = some [] :=
  ⟨(leave_call_behaviour "c1" "RX" [("R", [⟨"c1", "u1", none, none⟩])]).1
      (Or.inr (by decide)),
   ((leave_call_behaviour "c1" "R" [("R", [⟨"c1", "u1", none, none⟩])]).2
      [⟨"c1", "u1", none, none⟩] (by decide) (by decide)).1⟩

/-- Splitting a member list on a socket id: total length is the length
after removal plus the number of matching members. -/
theorem length_eq_filter_not_add_countP (q : Member → Bool) (l : List Member) :
    l.length = (l.filter (fun a => !(q a))).length + l.countP q := by
  induction l with
  | nil => rfl
  | cons a t ih =>
      cases hq : q a <;>
        simp [List.filter_cons, List.countP_cons, hq, ih] <;> omega

/-- Disconnect's room loop: member totals drop by exactly the number of
members carrying the socket id. -/
theorem totalMembers_disconnect (sid : String) (reg : Registry) :
    totalMembers reg = totalMembers (disconnect sid reg).registry + sidCount reg sid := by
  unfold totalMembers disconnect sidCount
  induction reg with
  | nil => rfl
  | cons q rest ih =>
      simp only [List.map_cons, List.sum_cons] at *
      rw [length_eq_filter_not_add_countP (fun u => u.socketId == sid) q.2, ih]
      omega

/-- Disconnect's per-room effects contain at most as many backend
remove-participant calls as there are members carrying the socket id. -/
theorem disconnectRoomEffects_countP (sid rid : String) (ms : List Member) :
    (disconnectRoomEffects sid rid ms).countP isRemoveParticipant ≤
      ms.countP (fun u => u.socketId == sid) := by
  dsimp only [disconnectRoomEffects]
  split
  · cases hf : ms.find? (fun u => u.socketId == sid) with
    | some u =>
        have hc : ([Effect.removeParticipant rid u.userId u.name] ++
            [Effect.usersOnline rid
              (ms.filter (fun u => !(u.socketId == sid)))]).countP
              isRemoveParticipant = 1 := by
          simp [isRemoveParticipant]
        rw [hc]
        have hpu := List.find?_some hf
        exact List.countP_pos_iff.mpr ⟨u, List.mem_of_find?_eq_some hf, hpu⟩
    | none =>
        simp [isRemoveParticipant]
  · simp

/-- Disconnect issues at most as many backend remove-participant calls
as there are members carrying the socket id in the whole registry. -/
theorem disconnect_effects_countP_le (sid : String) (reg : Registry) :
    (disconnect sid reg).effects.countP isRemoveParticipant ≤ sidCount reg sid := by
  show ((reg.map (fun q => disconnectRoomEffects sid q.1 q.2)).flatten).countP
      isRemoveParticipant ≤ sidCount reg sid
  unfold sidCount
  induction reg with
  | nil => simp
  | cons q rest ih =>
      simp only [List.map_cons, List.flatten_cons, List.countP_append,
        List.sum_cons]
      have h1 := disconnectRoomEffects_countP sid q.1 q.2
      omega

/-- C1 amended: assuming the spec's registry invariant — the connection
id occurs at most once across the whole registry — a disconnect removes
at most one Member system-wide and issues no more backend
remove-participant calls than Members actually removed.  (The invariant
itself is not preserved by arbitrary event sequences: see the
counterexample where one connection joins two rooms.) -/
theorem disconnect_removes_at_most_one (sid : String) (reg : Registry)
    (h : sidCount reg sid ≤ 1) :
    ∃ k ≤ 1, totalMembers reg = totalMembers (disconnect sid reg).registry + k ∧
      (disconnect sid reg).effects.countP isRemoveParticipant ≤ k :=
  ⟨sidCount reg sid, h, totalMembers_disconnect sid reg,
    disconnect_effects_countP_le sid reg⟩

/-- Witness for C1 amended at a two-room registry holding the socket
once. -/
theorem disconnect_removes_at_most_one_witness :
    ∃ k ≤ 1,
      totalMembers [("R1", [⟨"c1", "u1", none, none⟩]),
                    ("R2", [⟨"c2", "u2", none, none⟩])] =
        totalMembers (disconnect "c1"
          [("R1", [⟨"c1", "u1", none, none⟩]),
           ("R2", [⟨"c2", "u2", none, none⟩])]).registry + k ∧
      (disconnect "c1"
          [("R1", [⟨"c1", "u1", none, none⟩]),
           ("R2", [⟨"c2", "u2", none, none⟩])]).effects.countP
        isRemoveParticipant ≤ k :=
  disconnect_removes_at_most_one "c1"
    [("R1", [⟨"c1", "u1", none, none⟩]), ("R2", [⟨"c2", "u2", none, none⟩])]
    (by decide)

/-- Evaluation of the join handler in Case 2 (fresh connection id and
fresh `userId` for the room): the member is appended and the backend
call is attempted; on success the join and broadcast follow, on failure
the handler aborts with only the backend call performed. -/
theorem newUserB_case2 (bf : Bool) (sid : String) (p : JoinPayload)
    (reg : Registry)
    (hu : p.userId ≠ "") (hr : p.roomId ≠ "")
    (hsid : ∀ u ∈ roomList reg p.roomId, u.socketId ≠ sid)
    (huid : ∀ u ∈ roomList reg p.roomId, u.userId ≠ p.userId) :
    newUserB bf sid p reg =
      ⟨setRoom (ensureRoom reg p.roomId) p.roomId
         (roomList reg p.roomId ++ [⟨sid, p.userId, p.name, p.photo⟩]),
       if bf then [Effect.addParticipant p.roomId p.userId p.name]
       else [Effect.addParticipant p.roomId p.userId p.name,
             Effect.joinRoom p.roomId,
             Effect.usersOnline p.roomId
               (roomList reg p.roomId ++ [⟨sid, p.userId, p.name, p.photo⟩])],
       bf⟩ := by
  have hv : ¬(p.userId = "" ∨ p.roomId = "") := not_or.mpr ⟨hu, hr⟩
  have hre := roomList_ensureRoom reg p.roomId
  have hidx : (roomList reg p.roomId).findIdx?
      (fun u => u.socketId == sid) = none := by
    rw [List.findIdx?_eq_none_iff]
    intro x hx
    simpa using hsid x hx
  have hany : (roomList reg p.roomId).any
      (fun u => u.userId == p.userId) = false := by
    rw [List.any_eq_false]
    intro x hx
    simpa using huid x hx
  unfold newUserB
  rw [if_neg hv]
  cases bf <;> simp [hre, hidx, hany]

/-- C3 amended: when the backend add-participant call fails during a
new-user join, the registry mutation already performed is kept (not
rolled back), but the handler aborts at the uncaught rejection: the only
effect is the attempted backend call — the connection is not attached to
the room's broadcast group and no `usersOnline` broadcast happens. -/
theorem backend_failure_keeps_mutation (sid : String) (p : JoinPayload)
    (reg : Registry)
    (hu : p.userId ≠ "") (hr : p.roomId ≠ "")
    (hsid : ∀ u ∈ roomList reg p.roomId, u.socketId ≠ sid)
    (huid : ∀ u ∈ roomList reg p.roomId, u.userId ≠ p.userId) :
    findRoom (newUserB true sid p reg).registry p.roomId =
      some (roomList reg p.roomId ++ [⟨sid, p.userId, p.name, p.photo⟩]) ∧
    (newUserB true sid p reg).effects =
      [Effect.addParticipant p.roomId p.userId p.name] ∧
    (newUserB true sid p reg).threw = true := by
  rw [newUserB_case2 true sid p reg hu hr hsid huid]
  refine ⟨?_, rfl, rfl⟩
  exact findRoom_setRoom_some (findRoom_ensureRoom reg p.roomId)

/-- Witness for C3 amended at a concrete fresh join whose backend call
fails. -/
theorem backend_failure_keeps_mutation_witness :
    findRoom (newUserB true "c1" ⟨"u1", some "N", none, "R"⟩ []).registry "R" =
      some [⟨"c1", "u1", some "N", none⟩] ∧
    (newUserB true "c1" ⟨"u1", some "N", none, "R"⟩ []).effects =
      [Effect.addParticipant "R" "u1" (some "N")] ∧
    (newUserB true "c1" ⟨"u1", some "N", none, "R"⟩ []).threw = true :=
  backend_failure_keeps_mutation "c1" ⟨"u1", some "N", none, "R"⟩ []
    (by decide) (by decide) (by decide) (by decide)

/-- Writing back the value already stored at an index is a no-op. -/
theorem set_getElem?_eq_self {α : Type _} {l : List α} {i : Nat} {v : α}
    (h : l[i]? = some v) : l.set i v = l := by
  induction l generalizing i with
  | nil => simp at h
  | cons a t ih =>
      cases i with
      | zero =>
          simp only [List.getElem?_cons_zero, Option.some.injEq] at h
          simp [h]
      | succ i =>
          simp only [List.getElem?_cons_succ] at h
          simp [ih h]

/-- Overwriting the found index with a value still matching the
predicate keeps `findIdx?` pointing there, and the index now holds the
new value. -/
theorem findIdx?_set_same {q : Member → Bool} {v : Member} (hv : q v = true) :
    ∀ {l : List Member} {i : Nat}, l.findIdx? q = some i →
      (l.set i v).findIdx? q = some i ∧ (l.set i v)[i]? = some v := by
  intro l
  induction l with
  | nil => intro i h; simp at h
  | cons a t ih =>
      intro i h
      cases hqa : q a with
      | true =>
          rw [List.findIdx?_cons, if_pos hqa] at h
          injection h with h0
          subst h0
          constructor
          · simp [List.findIdx?_cons, hv]
          · simp
      | false =>
          rw [List.findIdx?_cons, if_neg (by simp [hqa])] at h
          rw [List.findIdx?_succ] at h
          cases hi : t.findIdx? q with
          | none => rw [hi] at h; simp at h
          | some j =>
              rw [hi] at h
              simp only [Option.map_some', Option.some.injEq] at h
              subst h
              obtain ⟨ih1, ih2⟩ := ih hi
              constructor
              · simp [List.set_cons_succ, List.findIdx?_cons, hqa,
                  List.findIdx?_succ, ih1]
              · simpa [List.set_cons_succ] using ih2

/-- When some element matches and every matching element equals `v`,
`findIdx?` lands on an index holding `v`. -/
theorem findIdx?_of_all_eq {q : Member → Bool} {v : Member} :
    ∀ {l : List Member}, l.any q = true →
      (∀ w ∈ l, q w = true → w = v) →
      ∃ i, l.findIdx? q = some i ∧ l[i]? = some v := by
  intro l
  induction l with
  | nil => intro hany _; simp at hany
  | cons a t ih =>
      intro hany hall
      cases hqa : q a with
      | true =>
          refine ⟨0, ?_, ?_⟩
          · simp [List.findIdx?_cons, hqa]
          · simp [hall a (List.mem_cons_self a t) hqa]
      | false =>
          have hany' : t.any q = true := by simpa [hqa] using hany
          obtain ⟨i, h1, h2⟩ :=
            ih hany' (fun w hw => hall w (List.mem_cons_of_mem a hw))
          refine ⟨i + 1, ?_, ?_⟩
          · simp [List.findIdx?_cons, hqa, List.findIdx?_succ, h1]
          · simpa using h2

/-- Two successive assignments to the same room key collapse to the
last one. -/
theorem setRoom_setRoom (reg : Registry) (rid : String) (a b : List Member) :
    setRoom (setRoom reg rid a) rid b = setRoom reg rid b := by
  unfold setRoom
  rw [List.map_map]
  apply List.map_congr_left
  intro q _
  by_cases h : q.1 = rid
  · simp [Function.comp, h]
  · simp [Function.comp, h]

/-- After any valid join, the joined room's list has the joining
connection's Member `⟨sid, userId, name, photo⟩` at the first index
`findIdx?` reports for that socket id. -/
theorem newUser_room_state (sid : String) (p : JoinPayload) (reg : Registry)
    (hv : ¬(p.userId = "" ∨ p.roomId = "")) :
    ∃ l i, (newUser sid p reg).registry =
        setRoom (ensureRoom reg p.roomId) p.roomId l ∧
      l.findIdx? (fun u => u.socketId == sid) = some i ∧
      l[i]? = some ⟨sid, p.userId, p.name, p.photo⟩ := by
  unfold newUser newUserB
  rw [if_neg hv]
  cases hidx : (roomList (ensureRoom reg p.roomId) p.roomId).findIdx?
      (fun u => u.socketId == sid) with
  | some i =>
      obtain ⟨h1, h2⟩ := findIdx?_set_same (q := fun u => u.socketId == sid)
        (v := ⟨sid, p.userId, p.name, p.photo⟩) (by simp) hidx
      exact ⟨_, i, by simp [hidx], h1, h2⟩
  | none =>
      cases hany : (roomList (ensureRoom reg p.roomId) p.roomId).any
          (fun u => u.userId == p.userId) with
      | false =>
          refine ⟨roomList (ensureRoom reg p.roomId) p.roomId ++
              [⟨sid, p.userId, p.name, p.photo⟩],
            (roomList (ensureRoom reg p.roomId) p.roomId).length,
            by simp [hidx, hany], ?_, ?_⟩
          · rw [List.findIdx?_append, hidx]
            simp [List.findIdx?_cons]
          · simp [List.getElem?_concat_length]
      | true =>
          have hanym : ((roomList (ensureRoom reg p.roomId) p.roomId).map
              (fun u => if u.userId == p.userId
                then (⟨sid, p.userId, p.name, p.photo⟩ : Member) else u)).any
              (fun u => u.socketId == sid) = true := by
            obtain ⟨w, hw, hqw⟩ := List.any_eq_true.mp hany
            refine List.any_eq_true.mpr ⟨_, List.mem_map_of_mem _ hw, ?_⟩
            simp [hqw]
          have hall : ∀ w ∈ (roomList (ensureRoom reg p.roomId) p.roomId).map
              (fun u => if u.userId == p.userId
                then (⟨sid, p.userId, p.name, p.photo⟩ : Member) else u),
              (w.socketId == sid) = true →
              w = ⟨sid, p.userId, p.name, p.photo⟩ := by
            intro w hw hqw
            obtain ⟨u, hu, rfl⟩ := List.mem_map.mp hw
            by_cases hq : (u.userId == p.userId) = true
            · rw [if_pos hq]
            · rw [if_neg hq] at hqw ⊢
              have := List.findIdx?_eq_none_iff.mp hidx u hu
              rw [this] at hqw
              cases hqw
          obtain ⟨i, h1, h2⟩ := findIdx?_of_all_eq hanym hall
          exact ⟨_, i, by simp [hidx, hany], h1, h2⟩

/-- A valid join from a connection whose Member is already recorded
verbatim in the room reduces to Case 1 and rewrites nothing. -/
theorem newUser_second_run (sid : String) (p : JoinPayload) (R : Registry)
    (l : List Member) (i : Nat)
    (hv : ¬(p.userId = "" ∨ p.roomId = ""))
    (hfr : findRoom R p.roomId = some l)
    (hfind : l.findIdx? (fun u => u.socketId == sid) = some i)
    (hget : l[i]? = some ⟨sid, p.userId, p.name, p.photo⟩) :
    newUser sid p R =
      ⟨setRoom R p.roomId l,
       [Effect.joinRoom p.roomId, Effect.usersOnline p.roomId l], false⟩ := by
  have hens := ensureRoom_of_some hfr
  have hrl : roomList R p.roomId = l := by
    unfold roomList
    rw [hfr]
    rfl
  unfold newUser newUserB
  rw [if_neg hv]
  simp [hens, hrl, hfind, set_getElem?_eq_self hget]

/-- C5: delivering the same join event twice in a row is idempotent on
the registry — the second join leaves the registry (hence the room's
member list) exactly as after the first join — and the second join
performs no backend add-participant call. -/
theorem join_twice_idempotent_no_second_add (sid : String) (p : JoinPayload)
    (reg : Registry) :
    (newUser sid p ((newUser sid p reg).registry)).registry =
      (newUser sid p reg).registry ∧
    (newUser sid p ((newUser sid p reg).registry)).effects.countP
      isAddParticipant = 0 := by
  by_cases hv : p.userId = "" ∨ p.roomId = ""
  · have h1 : newUser sid p reg = ⟨reg, [], false⟩ := by
      unfold newUser newUserB
      rw [if_pos hv]
    rw [h1]
    show (newUser sid p reg).registry = reg ∧
      (newUser sid p reg).effects.countP isAddParticipant = 0
    rw [h1]
    exact ⟨rfl, rfl⟩
  · obtain ⟨l, i, hreg, hfind, hget⟩ := newUser_room_state sid p reg hv
    have hfr : findRoom (newUser sid p reg).registry p.roomId = some l := by
      rw [hreg]
      exact findRoom_setRoom_some (findRoom_ensureRoom reg p.roomId)
    rw [newUser_second_run sid p _ l i hv hfr hfind hget]
    constructor
    · show setRoom (newUser sid p reg).registry p.roomId l =
        (newUser sid p reg).registry
      rw [hreg, setRoom_setRoom]
    · simp [isAddParticipant]

/-- Mapping commutes with removing one index. -/
theorem map_eraseIdx_comm {α β : Type _} (f : α → β) :
    ∀ (l : List α) (i : Nat), (l.eraseIdx i).map f = (l.map f).eraseIdx i := by
  intro l
  induction l with
  | nil => intro i; simp
  | cons a t ih =>
      intro i
      cases i with
      | zero => simp
      | succ i => simp [ih]

/-- Overwriting one index with a value absent from the other positions
preserves `Nodup`. -/
theorem nodup_set_of_not_mem_eraseIdx {α : Type _} {x : α} :
    ∀ {l : List α} {i : Nat}, l.Nodup → x ∉ l.eraseIdx i → (l.set i x).Nodup := by
  intro l
  induction l with
  | nil => intro i _ _; simp
  | cons a t ih =>
      intro i hnd hx
      cases i with
      | zero =>
          rw [List.eraseIdx_cons_zero] at hx
          rw [List.set_cons_zero]
          exact List.nodup_cons.mpr ⟨hx, (List.nodup_cons.mp hnd).2⟩
      | succ i =>
          rw [List.eraseIdx_cons_succ] at hx
          rw [List.set_cons_succ]
          obtain ⟨ha, ht⟩ := List.nodup_cons.mp hnd
          have hxa : x ≠ a := fun hxa => hx (hxa ▸ List.mem_cons_self a _)
          have hxe : x ∉ t.eraseIdx i := fun hm => hx (List.mem_cons_of_mem a hm)
          refine List.nodup_cons.mpr ⟨?_, ih ht hxe⟩
          intro hmem
          rcases List.mem_or_eq_of_mem_set hmem with hm | he
          · exact ha hm
          · exact hxa he.symm

/-- `setRoom` preserves the per-room `userId` uniqueness invariant when
the new member list satisfies it. -/
theorem roomsUserIdNodup_setRoom {reg : Registry} {rid : String}
    {ms' : List Member} (h : roomsUserIdNodup reg)
    (hms : (ms'.map Member.userId).Nodup) :
    roomsUserIdNodup (setRoom reg rid ms') := by
  intro q hq
  obtain ⟨q0, hq0, rfl⟩ := List.mem_map.mp hq
  by_cases hk : (q0.1 == rid) = true
  · rw [if_pos hk]
    exact hms
  · rw [if_neg hk]
    exact h q0 hq0

/-- `ensureRoom` preserves the per-room `userId` uniqueness invariant. -/
theorem roomsUserIdNodup_ensureRoom {reg : Registry} {rid : String}
    (h : roomsUserIdNodup reg) : roomsUserIdNodup (ensureRoom reg rid) := by
  unfold ensureRoom
  cases hf : findRoom reg rid with
  | some ms => exact h
  | none =>
      intro q hq
      rcases List.mem_append.mp hq with hq | hq
      · exact h q hq
      · simp only [List.mem_singleton] at hq
        subst hq
        simp

/-- The invariant transfers from the registry to any room list read from
it. -/
theorem roomList_userIds_nodup {reg : Registry} (h : roomsUserIdNodup reg)
    (rid : String) : ((roomList reg rid).map Member.userId).Nodup := by
  unfold roomList findRoom
  cases hf : List.find? (fun q => q.1 == rid) reg with
  | none => simp
  | some qq =>
      have := h qq (List.mem_of_find?_eq_some hf)
      simpa using this

/-- C2 amended: every operation (join in all three cases, disconnect,
explicit leave, chat) preserves per-room `userId` uniqueness, provided a
join whose connection is already registered in the room does not
overwrite that Member's `userId` with a `userId` another Member of the
room holds (the `joinSafe` side condition; the counterexample shows the
claim fails without it). -/
theorem userId_unique_per_room_preserved (reg : Registry) (e : Event)
    (hs : joinSafe reg e) (h : roomsUserIdNodup reg) :
    roomsUserIdNodup (step reg e) := by
  cases e with
  | chat now sid p =>
      show roomsUserIdNodup (chatMessage now sid p reg).registry
      have hcr : (chatMessage now sid p reg).registry = reg := by
        dsimp only [chatMessage]
        split
        · rfl
        · split <;> rfl
      rw [hcr]
      exact h
  | disc sid =>
      intro q hq
      obtain ⟨q0, hq0, rfl⟩ := List.mem_map.mp hq
      exact List.Nodup.sublist
        (List.Sublist.map _ (List.filter_sublist _)) (h q0 hq0)
  | leave sid rid =>
      show roomsUserIdNodup (leaveCall sid rid reg).registry
      unfold leaveCall
      split
      · exact h
      · split
        · exact h
        · rename_i users heq
          apply roomsUserIdNodup_setRoom h
          have husers : (users.map Member.userId).Nodup := by
            have hrl : roomList reg rid = users := by
              unfold roomList
              rw [heq]
              rfl
            simpa [hrl] using roomList_userIds_nodup h rid
          exact List.Nodup.sublist
            (List.Sublist.map _ (List.filter_sublist _)) husers
  | join sid p =>
      show roomsUserIdNodup (newUser sid p reg).registry
      by_cases hv : p.userId = "" ∨ p.roomId = ""
      · have hstep : newUser sid p reg = ⟨reg, [], false⟩ := by
          unfold newUser newUserB
          rw [if_pos hv]
        rw [hstep]
        exact h
      · have h1 : roomsUserIdNodup (ensureRoom reg p.roomId) :=
          roomsUserIdNodup_ensureRoom h
        have hl : ((roomList (ensureRoom reg p.roomId) p.roomId).map
            Member.userId).Nodup := roomList_userIds_nodup h1 _
        cases hidx : (roomList (ensureRoom reg p.roomId) p.roomId).findIdx?
            (fun u => u.socketId == sid) with
        | some i =>
            have hstep : (newUser sid p reg).registry =
                setRoom (ensureRoom reg p.roomId) p.roomId
                  ((roomList (ensureRoom reg p.roomId) p.roomId).set i
                    ⟨sid, p.userId, p.name, p.photo⟩) := by
              unfold newUser newUserB
              rw [if_neg hv]
              simp [hidx]
            rw [hstep]
            apply roomsUserIdNodup_setRoom h1
            rw [List.map_set]
            apply nodup_set_of_not_mem_eraseIdx hl
            rw [← map_eraseIdx_comm]
            intro hmem
            obtain ⟨u, hu, huid⟩ := List.mem_map.mp hmem
            exact (hs i hidx u hu) huid
        | none =>
            cases hany : (roomList (ensureRoom reg p.roomId) p.roomId).any
                (fun u => u.userId == p.userId) with
            | false =>
                have hstep : (newUser sid p reg).registry =
                    setRoom (ensureRoom reg p.roomId) p.roomId
                      (roomList (ensureRoom reg p.roomId) p.roomId ++
                        [⟨sid, p.userId, p.name, p.photo⟩]) := by
                  unfold newUser newUserB
                  rw [if_neg hv]
                  simp [hidx, hany]
                rw [hstep]
                apply roomsUserIdNodup_setRoom h1
                rw [List.map_append, List.nodup_append]
                refine ⟨hl, List.nodup_singleton _, ?_⟩
                intro x hx hx1
                simp only [List.map_cons, List.map_nil,
                  List.mem_singleton] at hx1
                subst hx1
                obtain ⟨u, hu, huid⟩ := List.mem_map.mp hx
                have := List.any_eq_false.mp hany u hu
                exact this (by simp [huid])
            | true =>
                have hstep : (newUser sid p reg).registry =
                    setRoom (ensureRoom reg p.roomId) p.roomId
                      ((roomList (ensureRoom reg p.roomId) p.roomId).map
                        (fun u => if u.userId == p.userId
                          then (⟨sid, p.userId, p.name, p.photo⟩ : Member)
                          else u)) := by
                  unfold newUser newUserB
                  rw [if_neg hv]
                  simp [hidx, hany]
                rw [hstep]
                apply roomsUserIdNodup_setRoom h1
                have hmap : ((roomList (ensureRoom reg p.roomId) p.roomId).map
                    (fun u => if u.userId == p.userId
                      then (⟨sid, p.userId, p.name, p.photo⟩ : Member)
                      else u)).map Member.userId =
                    (roomList (ensureRoom reg p.roomId) p.roomId).map
                      Member.userId := by
                  rw [List.map_map]
                  apply List.map_congr_left
                  intro u _
                  by_cases hq : (u.userId == p.userId) = true
                  · simp only [Function.comp_apply, if_pos hq]
                    exact (eq_of_beq hq).symm
                  · simp only [Function.comp_apply, if_neg hq]
                rw [hmap]
                exact hl

/-- Witness for C2 amended: a safe fresh-user join into a one-member
room keeps userIds unique. -/
theorem userId_unique_per_room_preserved_witness :
    roomsUserIdNodup (step [("R", [⟨"c1", "uA", none, none⟩])]
      (Event.join "c2" ⟨"uB", none, none, "R"⟩)) :=
  userId_unique_per_room_preserved [("R", [⟨"c1", "uA", none, none⟩])]
    (Event.join "c2" ⟨"uB", none, none, "R"⟩)
    (by
      intro i hi
      have h0 : (roomList (ensureRoom [("R", [⟨"c1", "uA", none, none⟩])] "R")
          "R").findIdx? (fun u => u.socketId == "c2") = none := by decide
      rw [h0] at hi
      exact Option.noConfusion hi)
    (by
      unfold roomsUserIdNodup
      decide)

/-- The chat sender scan resolves to the first room whose member list
mentions the socket id, returning that room's first matching Member. -/
theorem findSender_first {sid : String} {pre post : Registry} {rid : String}
    {ms : List Member} {m : Member}
    (hpre : ∀ q ∈ pre, ∀ u ∈ q.2, u.socketId ≠ sid)
    (hfind : ms.find? (fun u => u.socketId == sid) = some m) :
    findSender sid (pre ++ (rid, ms) :: post) = some (rid, m) := by
  induction pre with
  | nil =>
      show (match ms.find? (fun u => u.socketId == sid) with
            | some m' => some (rid, m')
            | none   => findSender sid post) = some (rid, m)
      rw [hfind]
  | cons q rest ih =>
      obtain ⟨qr, qm⟩ := q
      show (match qm.find? (fun u => u.socketId == sid) with
            | some m' => some (qr, m')
            | none   => findSender sid (rest ++ (rid, ms) :: post)) =
          some (rid, m)
      rw [find?_sid_eq_none
        (fun u hu => hpre (qr, qm) (List.mem_cons_self _ _) u hu)]
      exact ih (fun q hq => hpre q (List.mem_cons_of_mem _ hq))

/-- C7: a chat message that is non-empty after trimming, from a
connection found in some room, is broadcast exactly once, to the first
room containing that connection, carrying the trimmed text, the stored
`name`/`photo` of that room's Member for the connection, the payload's
`userId`, and the client timestamp whenever one was supplied. -/
theorem chat_broadcast_resolves_sender (now sid : String) (p : ChatPayload)
    (pre post : Registry) (rid : String) (ms : List Member) (m : Member)
    (hmsg : jsTrim p.message ≠ "")
    (hpre : ∀ q ∈ pre, ∀ u ∈ q.2, u.socketId ≠ sid)
    (hfind : ms.find? (fun u => u.socketId == sid) = some m) :
    ∃ out : OutMessage,
      chatMessage now sid p (pre ++ (rid, ms) :: post) =
        ⟨pre ++ (rid, ms) :: post, [Effect.chatMsg rid out], false⟩ ∧
      out.message = jsTrim p.message ∧
      out.name = m.name ∧ out.photo = m.photo ∧
      out.userId = p.userId ∧
      ∀ t, p.timestamp = some t → out.timestamp = t := by
  refine ⟨⟨p.userId, jsTrim p.message, p.timestamp.getD now, m.name, m.photo⟩,
    ?_, rfl, rfl, rfl, rfl, ?_⟩
  · dsimp only [chatMessage]
    rw [if_neg hmsg, findSender_first hpre hfind]
  · intro t ht
    simp [ht]

/-- Witness for C7: `{userId:"B", message:" hi ", timestamp:"TT"}` from a
Member named `Bea` of the second room. -/
theorem chat_broadcast_resolves_sender_witness :
    ∃ out : OutMessage,
      chatMessage "T" "c1" ⟨"B", " hi ", some "TT"⟩
          ([("R1", [⟨"cX", "X", none, none⟩])] ++
            ("R2", [⟨"c1", "B", some "Bea", some "ph"⟩]) :: []) =
        ⟨[("R1", [⟨"cX", "X", none, none⟩])] ++
            ("R2", [⟨"c1", "B", some "Bea", some "ph"⟩]) :: [],
         [Effect.chatMsg "R2" out], false⟩ ∧
      out.message = jsTrim " hi " ∧
      out.name = some "Bea" ∧ out.photo = some "ph" ∧
      out.userId = "B" ∧
      ∀ t, (some "TT" : Option String) = some t → out.timestamp = t :=
  chat_broadcast_resolves_sender "T" "c1" ⟨"B", " hi ", some "TT"⟩
    [("R1", [⟨"cX", "X", none, none⟩])] []
    "R2" [⟨"c1", "B", some "Bea", some "ph"⟩] ⟨"c1", "B", some "Bea", some "ph"⟩
    (by decide) (by decide) (by decide)

/-- Evaluation of the join handler in Case 3 (the room holds the
`userId` at the last position under a different connection id): the
Member is rewritten in place to the new connection id and attributes,
with no backend call. -/
theorem newUser_case3 (sid : String) (p : JoinPayload) (reg : Registry)
    (ms0 : List Member) (c0 : String) (n0 p0 : Option String)
    (hu : p.userId ≠ "") (hr : p.roomId ≠ "")
    (hroom : roomList reg p.roomId = ms0 ++ [⟨c0, p.userId, n0, p0⟩])
    (hsid : ∀ m ∈ ms0, m.socketId ≠ sid) (hc0 : c0 ≠ sid)
    (huid : ∀ m ∈ ms0, m.userId ≠ p.userId) :
    newUser sid p reg =
      ⟨setRoom reg p.roomId (ms0 ++ [⟨sid, p.userId, p.name, p.photo⟩]),
       [Effect.joinRoom p.roomId,
        Effect.usersOnline p.roomId (ms0 ++ [⟨sid, p.userId, p.name, p.photo⟩])],
       false⟩ := by
  have hv : ¬(p.userId = "" ∨ p.roomId = "") := not_or.mpr ⟨hu, hr⟩
  have hfr : findRoom reg p.roomId = some (roomList reg p.roomId) :=
    findRoom_of_roomList_ne_nil (by rw [hroom]; simp)
  have hens : ensureRoom reg p.roomId = reg := ensureRoom_of_some hfr
  have hidx : (roomList reg p.roomId).findIdx?
      (fun u => u.socketId == sid) = none := by
    rw [List.findIdx?_eq_none_iff]
    intro x hx
    rw [hroom] at hx
    rcases List.mem_append.mp hx with hx | hx
    · simpa using hsid x hx
    · simp only [List.mem_singleton] at hx
      subst hx
      simpa using hc0
  have hany : (roomList reg p.roomId).any
      (fun u => u.userId == p.userId) = true := by
    refine List.any_eq_true.mpr ⟨⟨c0, p.userId, n0, p0⟩, ?_, by simp⟩
    rw [hroom]
    simp
  have hmapped : (roomList reg p.roomId).map
      (fun u => if u.userId == p.userId
        then (⟨sid, p.userId, p.name, p.photo⟩ : Member) else u) =
      ms0 ++ [⟨sid, p.userId, p.name, p.photo⟩] := by
    rw [hroom, List.map_append]
    congr 1
    · have hident : ∀ m ∈ ms0,
          (if m.userId == p.userId
            then (⟨sid, p.userId, p.name, p.photo⟩ : Member) else m) = m :=
        fun m hm => if_neg (by simpa using huid m hm)
      rw [List.map_congr_left hident, List.map_id']
    · simp
  have hraw : newUser sid p reg =
      ⟨setRoom reg p.roomId ((roomList reg p.roomId).map
          (fun u => if u.userId == p.userId
            then (⟨sid, p.userId, p.name, p.photo⟩ : Member) else u)),
       [Effect.joinRoom p.roomId,
        Effect.usersOnline p.roomId ((roomList reg p.roomId).map
          (fun u => if u.userId == p.userId
            then (⟨sid, p.userId, p.name, p.photo⟩ : Member) else u))],
       false⟩ := by
    unfold newUser newUserB
    rw [if_neg hv]
    simp [hens, hidx, hany]
  rw [hraw, hmapped]

/-- Tail induction for reconnect sequences: if the room's list is some
prefix plus one Member holding the shared `userId` at the end, each
further join with a fresh connection id rewrites only that last Member,
and no further backend add-participant call ever happens. -/
theorem joinSeq_tail (u rid : String) (hu : u ≠ "") (hr : rid ≠ "") :
    ∀ (L : List (String × Option String × Option String)) (reg : Registry)
      (ms0 : List Member) (c0 : String) (n0 p0 : Option String),
      roomList reg rid = ms0 ++ [⟨c0, u, n0, p0⟩] →
      (∀ m ∈ ms0, m.userId ≠ u) →
      (∀ m ∈ ms0, ∀ c ∈ L.map (fun x => x.1), m.socketId ≠ c) →
      c0 ∉ L.map (fun x => x.1) →
      (L.map (fun x => x.1)).Nodup →
      roomList (joinSeq u rid reg L).1 rid =
        ms0 ++ [⟨(L.getLastD (c0, n0, p0)).1, u,
                 (L.getLastD (c0, n0, p0)).2.1,
                 (L.getLastD (c0, n0, p0)).2.2⟩] ∧
      (joinSeq u rid reg L).2.countP isAddParticipant = 0 := by
  intro L
  induction L with
  | nil =>
      intro reg ms0 c0 n0 p0 hroom _ _ _ _
      exact ⟨by simpa using hroom, rfl⟩
  | cons x rest ih =>
      intro reg ms0 c0 n0 p0 hroom huid hsid hc0 hnd
      obtain ⟨c1, n1, p1⟩ := x
      have hc1ms0 : ∀ m ∈ ms0, m.socketId ≠ c1 :=
        fun m hm => hsid m hm c1 (by simp)
      have hc0c1 : c0 ≠ c1 := fun he => hc0 (by simp [he])
      have hstep := newUser_case3 c1 ⟨u, n1, p1, rid⟩ reg ms0 c0 n0 p0
        hu hr hroom hc1ms0 hc0c1 huid
      have hroom1 : roomList (newUser c1 ⟨u, n1, p1, rid⟩ reg).registry rid =
          ms0 ++ [⟨c1, u, n1, p1⟩] := by
        rw [hstep]
        show roomList (setRoom reg rid (ms0 ++ [⟨c1, u, n1, p1⟩])) rid = _
        unfold roomList
        rw [findRoom_setRoom_some (findRoom_of_roomList_ne_nil
          (by rw [hroom]; simp))]
        rfl
      have hnds := List.nodup_cons.mp
        (show (c1 :: rest.map (fun x => x.1)).Nodup from hnd)
      obtain ⟨ih1, ih2⟩ := ih (newUser c1 ⟨u, n1, p1, rid⟩ reg).registry
        ms0 c1 n1 p1 hroom1 huid
        (fun m hm c hc => hsid m hm c (List.mem_cons_of_mem _ (by simpa using hc)))
        hnds.1 hnds.2
      constructor
      · show roomList (joinSeq u rid
            (newUser c1 ⟨u, n1, p1, rid⟩ reg).registry rest).1 rid = _
        rw [List.getLastD_cons]
        exact ih1
      · show ((newUser c1 ⟨u, n1, p1, rid⟩ reg).effects ++
            (joinSeq u rid (newUser c1 ⟨u, n1, p1, rid⟩ reg).registry rest).2).countP
            isAddParticipant = 0
        rw [List.countP_append, ih2]
        rw [hstep]
        simp [isAddParticipant]

/-- C4: for any nonempty sequence of joins to a room sharing one
`userId`, with pairwise-distinct connection ids not yet present in that
room, and the `userId` not yet present either, the room ends with
exactly one Member for that `userId`, carrying the last join's
connection id, name and photo, and exactly one backend add-participant
call is made, by the first join. -/
theorem join_sequence_last_write_wins (u rid : String) (reg : Registry)
    (c1 : String) (n1 p1 : Option String)
    (rest : List (String × Option String × Option String))
    (hu : u ≠ "") (hr : rid ≠ "")
    (hnd : (((c1, n1, p1) :: rest).map (fun x => x.1)).Nodup)
    (hfresh : ∀ c ∈ ((c1, n1, p1) :: rest).map (fun x => x.1),
        ∀ m ∈ roomList reg rid, m.socketId ≠ c)
    (huid : ∀ m ∈ roomList reg rid, m.userId ≠ u) :
    roomList (joinSeq u rid reg ((c1, n1, p1) :: rest)).1 rid =
      roomList reg rid ++
        [⟨(rest.getLastD (c1, n1, p1)).1, u,
          (rest.getLastD (c1, n1, p1)).2.1,
          (rest.getLastD (c1, n1, p1)).2.2⟩] ∧
    (roomList (joinSeq u rid reg ((c1, n1, p1) :: rest)).1 rid).countP
      (fun m => m.userId == u) = 1 ∧
    (joinSeq u rid reg ((c1, n1, p1) :: rest)).2.countP isAddParticipant = 1 := by
  have hstep := newUserB_case2 false c1 ⟨u, n1, p1, rid⟩ reg hu hr
    (fun m hm => hfresh c1 (by simp) m hm)
    huid
  have hroom1 : roomList (newUser c1 ⟨u, n1, p1, rid⟩ reg).registry rid =
      roomList reg rid ++ [⟨c1, u, n1, p1⟩] := by
    show roomList (newUserB false c1 ⟨u, n1, p1, rid⟩ reg).registry rid = _
    rw [hstep]
    show roomList (setRoom (ensureRoom reg rid) rid
        (roomList reg rid ++ [⟨c1, u, n1, p1⟩])) rid = _
    unfold roomList
    rw [findRoom_setRoom_some (findRoom_ensureRoom reg rid)]
    rfl
  have hnds := List.nodup_cons.mp
    (show (c1 :: rest.map (fun x => x.1)).Nodup from hnd)
  obtain ⟨h1, h2⟩ := joinSeq_tail u rid hu hr rest
    (newUser c1 ⟨u, n1, p1, rid⟩ reg).registry (roomList reg rid) c1 n1 p1
    hroom1 huid
    (fun m hm c hc => hfresh c (List.mem_cons_of_mem _ (by simpa using hc)) m hm)
    hnds.1 hnds.2
  have hfin : roomList (joinSeq u rid reg ((c1, n1, p1) :: rest)).1 rid =
      roomList reg rid ++
        [⟨(rest.getLastD (c1, n1, p1)).1, u,
          (rest.getLastD (c1, n1, p1)).2.1,
          (rest.getLastD (c1, n1, p1)).2.2⟩] := by
    show roomList (joinSeq u rid
        (newUser c1 ⟨u, n1, p1, rid⟩ reg).registry rest).1 rid = _
    exact h1
  refine ⟨hfin, ?_, ?_⟩
  · rw [hfin, List.countP_append]
    have h0 : (roomList reg rid).countP (fun m => m.userId == u) = 0 :=
      List.countP_eq_zero.mpr (fun m hm => by simpa using huid m hm)
    rw [h0]
    simp
  · show ((newUser c1 ⟨u, n1, p1, rid⟩ reg).effects ++
        (joinSeq u rid (newUser c1 ⟨u, n1, p1, rid⟩ reg).registry rest).2).countP
        isAddParticipant = 1
    rw [List.countP_append, h2]
    have heff : (newUser c1 ⟨u, n1, p1, rid⟩ reg).effects.countP
        isAddParticipant = 1 := by
      show (newUserB false c1 ⟨u, n1, p1, rid⟩ reg).effects.countP
          isAddParticipant = 1
      rw [hstep]
      simp [isAddParticipant]
    rw [heff]

/-- Witness for C4: two joins for user `A` on fresh connections `c1`
then `c2` into an initially empty registry. -/
theorem join_sequence_last_write_wins_witness :
    roomList (joinSeq "A" "R" [] [("c1", some "N1", none),
      ("c2", some "N2", some "P2")]).1 "R" =
      roomList ([] : Registry) "R" ++ [⟨"c2", "A", some "N2", some "P2"⟩] ∧
    (roomList (joinSeq "A" "R" [] [("c1", some "N1", none),
      ("c2", some "N2", some "P2")]).1 "R").countP
      (fun m => m.userId == "A") = 1 ∧
    (joinSeq "A" "R" [] [("c1", some "N1", none),
      ("c2", some "N2", some "P2")]).2.countP isAddParticipant = 1 :=
  join_sequence_last_write_wins "A" "R" [] "c1" (some "N1") none
    [("c2", some "N2", some "P2")]
    (by decide) (by decide) (by decide) (by decide) (by decide)

end ServerChat
